import Mathlib

/-!
Verification of the resumable batch-processing logic of the prodigy_custom
scripts. Each definition is a shallow embedding of one function of the
repository, translated from the Python source; the theorems settle the
frozen claims about the batch-checkpointing and resumable-processing
protocol described in the design specification.

Sources embedded here:
  - src/scripts/ungdc_embedding_generator_01.py
      (_generate_batch_embeddings, generate_embeddings)
  - src/scripts/LLM/institution_tag_02.py and
    src/scripts/LLM/AgentPassive_tag_01.py
      (analyze_institutions, process_batch, the batch loop and the
       combine step of main)
  - src/scripts/LLM/agency_eval_10.py
      (load_previous_results, save_intermediate_results, the row loop
       of main)
  - src/scripts/LLM/socialfact_batch_03.py
      (extract_output_section, save_batch_results, the row loop of main)
-/

set_option autoImplicit false

/-- Outcome of one call to the external embedding API, as distinguished by
the except clause of UNGDCEmbeddingsGenerator._generate_batch_embeddings
(src/scripts/ungdc_embedding_generator_01.py, lines 56-77): a successful
response, a CohereError whose message contains the substring rate_limit
(lower-cased), or any other error. -/
inductive ApiOutcome (E : Type) where
  | success (e : E)
  | rateLimitErr (msg : String)
  | otherErr (msg : String)
deriving DecidableEq

/-- Recursion underlying _generate_batch_embeddings. The argument call maps
the attempt number (the Python retry_count) to that attempt's outcome; the
Python guard retry_count < max_retries is carried as the first argument
remaining = max_retries - retry_count so that the recursion is structural.
The returned list records the sleep durations 20 * (retry_count + 1) that
the code performs before each retry, in order. A rate-limited attempt with
no retry budget left, or any non-rate-limit error, re-raises (Except.error). -/
def generateBatchGo {E : Type} (call : Nat → ApiOutcome E) :
    Nat → Nat → Except String E × List Nat
  | 0, retryCount =>
    match call retryCount with
    | .success e => (.ok e, [])
    | .rateLimitErr m => (.error m, [])
    | .otherErr m => (.error m, [])
  | rem + 1, retryCount =>
    match call retryCount with
    | .success e => (.ok e, [])
    | .rateLimitErr _ =>
      let res := generateBatchGo call rem (retryCount + 1)
      (res.1, 20 * (retryCount + 1) :: res.2)
    | .otherErr m => (.error m, [])

/-- Model of UNGDCEmbeddingsGenerator._generate_batch_embeddings
(src/scripts/ungdc_embedding_generator_01.py lines 56-77): retry a
rate-limited call while retry_count < max_retries, sleeping
20 * (retry_count + 1) seconds before each retry, and re-raise once the
budget is exhausted or on any other error. The constructor default for
max_retries in the script is 3. -/
def generate_batch_embeddings {E : Type} (call : Nat → ApiOutcome E)
    (maxRetries retryCount : Nat) : Except String E × List Nat :=
  generateBatchGo call (maxRetries - retryCount) retryCount

/-- Model of the batch loop of generate_embeddings
(src/scripts/ungdc_embedding_generator_01.py lines 152-184): the batches are
processed in order; a successful batch extends the accumulated embeddings;
an exception raised by _generate_batch_embeddings is caught once, a final
error checkpoint holding the embeddings accumulated so far is written
(modelled by the error payload), and the exception is re-raised, aborting
the loop. The first index of call names the batch, the second the attempt. -/
def generate_embeddings_loop {E : Type} (call : Nat → Nat → ApiOutcome E)
    (maxRetries : Nat) : List Nat → List E → Except (String × List E) (List E)
  | [], acc => .ok acc
  | b :: rest, acc =>
    match generate_batch_embeddings (call b) maxRetries 0 with
    | (.ok e, _) => generate_embeddings_loop call maxRetries rest (acc ++ [e])
    | (.error m, _) => .error (m, acc)

/-- Model of analyze_institutions (src/scripts/LLM/institution_tag_02.py
lines 36-54; analyze_agency_expressions of AgentPassive_tag_01.py is
identical in structure): the external chat call either returns the response
text or raises, and the except clause records the exception message as the
string Error: msg, so a failure becomes data rather than aborting. -/
def analyze_institutions {ρ : Type} (call : ρ → Except String String)
    (r : ρ) : String :=
  match call r with
  | .ok t => t
  | .error m => "Error: " ++ m

/-- Model of process_batch (src/scripts/LLM/institution_tag_02.py lines
56-74): one Result per row of the batch, in row order, pairing the row with
its analysis; no retry path exists, so each row's call happens once. -/
def process_batch {ρ : Type} (call : ρ → Except String String) :
    List ρ → List (ρ × String)
  | [] => []
  | r :: rest => (r, analyze_institutions call r) :: process_batch call rest

/-- Unfolding equation of generateBatchGo at a positive retry budget. -/
theorem generateBatchGo_succ {E : Type} (call : Nat → ApiOutcome E)
    (rem retryCount : Nat) :
    generateBatchGo call (rem + 1) retryCount =
      match call retryCount with
      | .success e => (.ok e, [])
      | .rateLimitErr _ =>
        ((generateBatchGo call rem (retryCount + 1)).1,
          20 * (retryCount + 1) :: (generateBatchGo call rem (retryCount + 1)).2)
      | .otherErr m => (.error m, []) := by
  rfl

/-- Number of retries performed never exceeds the remaining budget. -/
theorem generateBatchGo_retries_le {E : Type} (call : Nat → ApiOutcome E) :
    ∀ rem retryCount, (generateBatchGo call rem retryCount).2.length ≤ rem
  | 0, retryCount => by
    cases h : call retryCount <;> simp [generateBatchGo, h]
  | rem + 1, retryCount => by
    cases h : call retryCount <;> simp [generateBatchGo, h]
    exact generateBatchGo_retries_le call rem (retryCount + 1)

/-- Every row of a batch yields exactly one recorded Result. -/
theorem process_batch_length {ρ : Type} (call : ρ → Except String String) :
    ∀ rows : List ρ, (process_batch call rows).length = rows.length
  | [] => rfl
  | _ :: rest => by simp [process_batch, process_batch_length call rest]

/-- Each row appears in the batch output paired with its analysis. -/
theorem process_batch_mem {ρ : Type} (call : ρ → Except String String) :
    ∀ (rows : List ρ) (r : ρ), r ∈ rows →
      (r, analyze_institutions call r) ∈ process_batch call rows
  | [], _, h => absurd h (List.not_mem_nil _)
  | x :: rest, r, h => by
    rcases List.mem_cons.mp h with h1 | h2
    · subst h1; exact List.mem_cons_self _ _
    · exact List.mem_cons_of_mem _ (process_batch_mem call rest r h2)

/-- C5: with the script's default max_retries = 3, a unit of work that is
rate limited on every attempt performs exactly 3 retries whose backoff
sleeps are 20, 40 and 60 seconds before the error is re-raised; in general
the number of retries never exceeds the remaining budget; and the sleep
sequence 20, 40, 60 is linearly, not exponentially, increasing: no
geometric progression with ratio above 1 matches it, although the code
comments the time.sleep(20 * (retry_count + 1)) line as exponential
backoff. -/
theorem c5_backoff_linear_not_exponential :
    generate_batch_embeddings
        (fun _ => (ApiOutcome.rateLimitErr "rate_limit" : ApiOutcome Nat)) 3 0
      = (Except.error "rate_limit", [20, 40, 60])
    ∧ (∀ (E : Type) (call : Nat → ApiOutcome E) (mr rc : Nat),
        (generate_batch_embeddings call mr rc).2.length ≤ mr - rc)
    ∧ ¬ ∃ a r : ℚ, 1 < r ∧ (20 : ℚ) = a ∧ (40 : ℚ) = a * r
        ∧ (60 : ℚ) = a * r ^ 2 := by
  refine ⟨by rfl, ?_, ?_⟩
  · intro E call mr rc
    exact generateBatchGo_retries_le call (mr - rc) rc
  · rintro ⟨a, r, hr, h20, h40, h60⟩
    have ha : a = 20 := h20.symm
    subst ha
    have hr2 : r = 2 := by linarith
    rw [hr2] at h60
    norm_num at h60

/-- C7: a unit of work whose external call is rate limited on exactly the
first two attempts and succeeds on the third yields exactly one outcome
under the default max_retries = 3, and that outcome is a success, reached
after backoff sleeps of 20 and 40 seconds. -/
theorem c7_two_transient_failures_then_success {E : Type}
    (call : Nat → ApiOutcome E) (e : E) (m0 m1 : String)
    (h0 : call 0 = .rateLimitErr m0) (h1 : call 1 = .rateLimitErr m1)
    (h2 : call 2 = .success e) :
    generate_batch_embeddings call 3 0 = (Except.ok e, [20, 40]) := by
  show generateBatchGo call (2 + 1) 0 = _
  rw [generateBatchGo_succ, h0]
  show ((generateBatchGo call (1 + 1) 1).1,
    20 :: (generateBatchGo call (1 + 1) 1).2) = _
  rw [generateBatchGo_succ, h1]
  show ((generateBatchGo call (0 + 1) 2).1,
    20 :: 40 :: (generateBatchGo call (0 + 1) 2).2) = _
  rw [generateBatchGo_succ, h2]

/-- Concrete external call that is rate limited on attempts 0 and 1 and
succeeds on attempt 2, used to witness the retry theorem. -/
def c7Call : Nat → ApiOutcome Nat := fun n =>
  if n < 2 then ApiOutcome.rateLimitErr "rate_limit hit" else ApiOutcome.success 42

/-- Witness for C7 at the concrete call c7Call. -/
theorem c7_witness :
    generate_batch_embeddings c7Call 3 0 = (Except.ok 42, [20, 40]) :=
  c7_two_transient_failures_then_success c7Call 42 "rate_limit hit"
    "rate_limit hit" rfl rfl rfl

/-- C4 counterexample: with the default max_retries = 3 and an external call
that is rate limited on every attempt, the very first batch exhausts its
retries and the whole embedding run aborts with the re-raised error; no
failed Result is recorded for the batch and the second batch is never
processed, contradicting the claim that a Transient failure exhausting its
retry limit is recorded as a failed Result with the run never aborted. -/
theorem c4_counterexample_exhausted_transient_aborts :
    generate_embeddings_loop
        (fun _ _ => (ApiOutcome.rateLimitErr "rate limit" : ApiOutcome Nat))
        3 [0, 1] []
      = Except.error ("rate limit", []) := by
  rfl

/-- C4 amended: in the tagging scripts a per-row failure is captured as an
error-marked Result and the run continues, one Result per row; in the
embedding generator, by contrast, a failure of a batch that exhausts its
retry budget propagates to the caller: the run writes a final error
checkpoint holding exactly the embeddings accumulated before the failing
batch and re-raises, aborting before any later batch. -/
theorem c4_amended_failure_propagation {E ρ : Type}
    (call : Nat → Nat → ApiOutcome E) (maxRetries b : Nat) (m : String)
    (rest : List Nat) (acc : List E)
    (hfail : (generate_batch_embeddings (call b) maxRetries 0).1 = .error m) :
    generate_embeddings_loop call maxRetries (b :: rest) acc
        = Except.error (m, acc)
    ∧ ∀ (tagCall : ρ → Except String String) (rows : List ρ),
        (process_batch tagCall rows).length = rows.length := by
  constructor
  · show (match generate_batch_embeddings (call b) maxRetries 0 with
      | (.ok e, _) => generate_embeddings_loop call maxRetries rest (acc ++ [e])
      | (.error m, _) => Except.error (m, acc)) = Except.error (m, acc)
    rcases hres : generate_batch_embeddings (call b) maxRetries 0 with ⟨r, delays⟩
    rw [hres] at hfail
    cases r with
    | ok e => exact absurd hfail (by simp)
    | error m2 =>
      have hm : m2 = m := by simpa using hfail
      subst hm
      rfl
  · intro tagCall rows
    exact process_batch_length tagCall rows

/-- Witness for the amended C4 at a concrete always-rate-limited call. -/
theorem c4_witness :
    generate_embeddings_loop
        (fun _ _ => (ApiOutcome.rateLimitErr "rate limit" : ApiOutcome Nat))
        3 [5, 6] [99]
      = Except.error ("rate limit", [99])
    ∧ ∀ (tagCall : Nat → Except String String) (rows : List Nat),
        (process_batch tagCall rows).length = rows.length :=
  c4_amended_failure_propagation
    (fun _ _ => (ApiOutcome.rateLimitErr "rate limit" : ApiOutcome Nat))
    3 5 "rate limit" [6] [99] (by rfl)

/-- Model of the row loop of main in src/scripts/LLM/agency_eval_10.py
(lines 180-294). The list completed holds the row identifiers found in the
existing output (completed_rows, built by load_previous_results from the
Row field of intermediate_results.jsonl); rows pairs each dataset index
with its row data, in dataset order; acc is the results list, which starts
as the previously loaded results. A row whose identifier index + 1 is in
completed is skipped; otherwise one result (index + 1, proc index row) is
appended and save_intermediate_results immediately rewrites the full
results list, recorded here as one checkpoint snapshot. The first component
of the value is the final results list (written to final_results.jsonl),
the second the successive intermediate checkpoint contents. The interactive
proceed prompt is modelled as always answered yes, a full run. -/
def agencyMainLoop {r s : Type} (proc : Nat → r → s) (completed : List Nat) :
    List (Nat × r) → List (Nat × s) → List (Nat × s) × List (List (Nat × s))
  | [], acc => (acc, [])
  | (index, row) :: rest, acc =>
    if index + 1 ∈ completed then agencyMainLoop proc completed rest acc
    else
      let acc2 := acc ++ [(index + 1, proc index row)]
      let res := agencyMainLoop proc completed rest acc2
      (res.1, acc2 :: res.2)

/-- Model of one invocation of agency_eval_10.main against an output store
already holding the results prev: completed_rows is the set of Row values
of prev and the loop starts from the loaded results. -/
def agencyRun {r s : Type} (proc : Nat → r → s) (prev : List (Nat × s))
    (rows : List (Nat × r)) : List (Nat × s) × List (List (Nat × s)) :=
  agencyMainLoop proc (prev.map Prod.fst) rows prev

/-- Final results of the agency loop: the entering accumulator followed by
one result for each row not yet completed, in dataset order. -/
theorem agencyMainLoop_fst {r s : Type} (proc : Nat → r → s)
    (completed : List Nat) :
    ∀ (rows : List (Nat × r)) (acc : List (Nat × s)),
      (agencyMainLoop proc completed rows acc).1
        = acc ++ (rows.filter
            (fun p => decide (p.1 + 1 ∉ completed))).map
            (fun p => (p.1 + 1, proc p.1 p.2))
  | [], acc => by simp [agencyMainLoop]
  | (index, row) :: rest, acc => by
    by_cases h : index + 1 ∈ completed
    · rw [agencyMainLoop]
      simp only [if_pos h]
      rw [agencyMainLoop_fst proc completed rest acc]
      simp [List.filter_cons, h]
    · rw [agencyMainLoop]
      simp only [if_neg h]
      rw [agencyMainLoop_fst proc completed rest
        (acc ++ [(index + 1, proc index row)])]
      simp [List.filter_cons, h]

/-- Every checkpoint snapshot written by the agency loop extends the
accumulator the loop entered with. -/
theorem agencyMainLoop_cp_extends {r s : Type} (proc : Nat → r → s)
    (completed : List Nat) :
    ∀ (rows : List (Nat × r)) (acc : List (Nat × s)),
      ∀ cp ∈ (agencyMainLoop proc completed rows acc).2, ∃ t, acc ++ t = cp
  | [], acc => by simp [agencyMainLoop]
  | (index, row) :: rest, acc => by
    by_cases h : index + 1 ∈ completed
    · rw [agencyMainLoop]
      simp only [if_pos h]
      exact agencyMainLoop_cp_extends proc completed rest acc
    · rw [agencyMainLoop]
      simp only [if_neg h]
      intro cp hcp
      rcases List.mem_cons.mp hcp with h1 | h2
      · exact ⟨[(index + 1, proc index row)], h1.symm⟩
      · rcases agencyMainLoop_cp_extends proc completed rest
          (acc ++ [(index + 1, proc index row)]) cp h2 with ⟨t, ht⟩
        exact ⟨[(index + 1, proc index row)] ++ t, by
          rw [← ht, List.append_assoc]⟩

/-- Every checkpoint snapshot written by the agency loop is an initial
segment of the final results list. -/
theorem agencyMainLoop_cp_le_final {r s : Type} (proc : Nat → r → s)
    (completed : List Nat) :
    ∀ (rows : List (Nat × r)) (acc : List (Nat × s)),
      ∀ cp ∈ (agencyMainLoop proc completed rows acc).2,
        ∃ t, cp ++ t = (agencyMainLoop proc completed rows acc).1
  | [], acc => by simp [agencyMainLoop]
  | (index, row) :: rest, acc => by
    by_cases h : index + 1 ∈ completed
    · rw [agencyMainLoop]
      simp only [if_pos h]
      exact agencyMainLoop_cp_le_final proc completed rest acc
    · rw [agencyMainLoop]
      simp only [if_neg h]
      intro cp hcp
      rcases List.mem_cons.mp hcp with h1 | h2
      · subst h1
        refine ⟨(rest.filter (fun p => decide (p.1 + 1 ∉ completed))).map
          (fun p => (p.1 + 1, proc p.1 p.2)), ?_⟩
        rw [agencyMainLoop_fst]
      · exact agencyMainLoop_cp_le_final proc completed rest
          (acc ++ [(index + 1, proc index row)]) cp h2

/-- Successive checkpoint snapshots of the agency loop each extend the
previous one. -/
theorem agencyMainLoop_cp_chain {r s : Type} (proc : Nat → r → s)
    (completed : List Nat) :
    ∀ (rows : List (Nat × r)) (acc : List (Nat × s)),
      List.Chain' (fun a b => ∃ t, a ++ t = b)
        (agencyMainLoop proc completed rows acc).2
  | [], acc => by simp [agencyMainLoop]
  | (index, row) :: rest, acc => by
    by_cases h : index + 1 ∈ completed
    · rw [agencyMainLoop]
      simp only [if_pos h]
      exact agencyMainLoop_cp_chain proc completed rest acc
    · rw [agencyMainLoop]
      simp only [if_neg h]
      refine List.chain'_cons'.mpr ⟨?_, agencyMainLoop_cp_chain proc completed
        rest (acc ++ [(index + 1, proc index row)])⟩
      intro b hb
      exact agencyMainLoop_cp_extends proc completed rest
        (acc ++ [(index + 1, proc index row)]) b (List.mem_of_mem_head? hb)

/-- C1: a second invocation of agency_eval_10 against the same output store
and dataset processes only the rows whose identifiers are absent from the
existing output: the final results are the loaded ones followed by exactly
the rows whose identifier index + 1 is not already recorded, in dataset
order; in particular, when the existing output already holds a Result for
every row the run appends nothing. -/
theorem c1_resume_processes_only_absent_rows {r s : Type}
    (proc : Nat → r → s) (prev : List (Nat × s)) (rows : List (Nat × r)) :
    (agencyRun proc prev rows).1
      = prev ++ (rows.filter
          (fun p => decide (p.1 + 1 ∉ prev.map Prod.fst))).map
          (fun p => (p.1 + 1, proc p.1 p.2))
    ∧ ((∀ p ∈ rows, p.1 + 1 ∈ prev.map Prod.fst) →
        (agencyRun proc prev rows).1 = prev) := by
  constructor
  · exact agencyMainLoop_fst proc (prev.map Prod.fst) rows prev
  · intro hall
    show (agencyMainLoop proc (prev.map Prod.fst) rows prev).1 = prev
    rw [agencyMainLoop_fst proc (prev.map Prod.fst) rows prev]
    have hnil : rows.filter (fun p => decide (p.1 + 1 ∉ prev.map Prod.fst)) = [] := by
      rw [List.filter_eq_nil_iff]
      intro p hp
      simpa using hall p hp
    rw [hnil]
    simp

/-- Witness for C1: with existing output for row 1, a rerun over rows with
indices 0 and 1 appends only row 2. -/
theorem c1_witness :
    (agencyRun (fun _ r => r) [(1, 5)] [(0, 7), (1, 8)]).1 = [(1, 5), (2, 8)] := by
  rw [(c1_resume_processes_only_absent_rows (fun _ r => r)
    [(1, 5)] [(0, 7), (1, 8)]).1]
  rfl

/-- C2: when the existing output has one Result per row identifier and the
dataset indices are distinct, a run never reprocesses or re-emits a row
identifier already in the processing state: the final output holds exactly
one Result per row identifier, and every newly emitted Result carries an
identifier absent from the loaded state. -/
theorem c2_unique_result_per_row_id {r s : Type} (proc : Nat → r → s)
    (prev : List (Nat × s)) (rows : List (Nat × r))
    (hprev : (prev.map Prod.fst).Nodup) (hrows : (rows.map Prod.fst).Nodup) :
    (((agencyRun proc prev rows).1).map Prod.fst).Nodup
    ∧ ∀ q ∈ ((agencyRun proc prev rows).1).drop prev.length,
        q.1 ∉ prev.map Prod.fst := by
  have hfst := (c1_resume_processes_only_absent_rows proc prev rows).1
  constructor
  · rw [hfst, List.map_append]
    rw [List.nodup_append]
    refine ⟨hprev, ?_, ?_⟩
    · rw [List.map_map]
      have hsub : (rows.filter
          (fun p => decide (p.1 + 1 ∉ prev.map Prod.fst))).map
          (Prod.fst ∘ fun p => (p.1 + 1, proc p.1 p.2))
          = ((rows.filter
              (fun p => decide (p.1 + 1 ∉ prev.map Prod.fst))).map
              Prod.fst).map (· + 1) := by
        simp [List.map_map, Function.comp]
      rw [hsub]
      refine List.Nodup.map (fun a b => by omega) ?_
      exact hrows.sublist (List.Sublist.map Prod.fst (List.filter_sublist rows))
    · intro a ha hb
      rw [List.map_map] at hb
      rcases List.mem_map.mp hb with ⟨p, hp, hpb⟩
      rcases List.mem_filter.mp hp with ⟨_, hdec⟩
      have hnotin : p.1 + 1 ∉ prev.map Prod.fst := of_decide_eq_true hdec
      have hpa : p.1 + 1 = a := by simpa using hpb
      exact hnotin (hpa ▸ ha)
  · rw [hfst, List.drop_left]
    intro q hq
    rcases List.mem_map.mp hq with ⟨p, hp, hpq⟩
    rcases List.mem_filter.mp hp with ⟨_, hdec⟩
    have := of_decide_eq_true hdec
    rw [← hpq]
    exact this

/-- Witness for C2 at concrete loaded results and dataset rows. -/
theorem c2_witness :
    ((([(1, 5), (3, 6)] : List (Nat × Nat)).map Prod.fst).Nodup
      ∧ (([(0, 7), (1, 8), (2, 9)] : List (Nat × Nat)).map Prod.fst).Nodup)
    ∧ ((((agencyRun (fun _ r => r) [(1, 5), (3, 6)]
          [(0, 7), (1, 8), (2, 9)]).1).map Prod.fst).Nodup
      ∧ ∀ q ∈ ((agencyRun (fun _ r => r) [(1, 5), (3, 6)]
          [(0, 7), (1, 8), (2, 9)]).1).drop 2,
          q.1 ∉ ([(1, 5), (3, 6)] : List (Nat × Nat)).map Prod.fst) :=
  ⟨⟨by decide, by decide⟩,
    c2_unique_result_per_row_id (fun _ r => r) [(1, 5), (3, 6)]
      [(0, 7), (1, 8), (2, 9)] (by decide) (by decide)⟩

/-- Model of the row loop of main in src/scripts/LLM/socialfact_batch_03.py
(lines 196-227). Rows are processed in dataset order with a 1-based counter
count; each produces one Result (count, proc row) appended to results.
Whenever count is a multiple of batch_size, save_batch_results writes the
last batch_size results to the file batch_results_{batch_number}.jsonl and
batch_number is incremented; after the loop, if the number of results is
not a multiple of batch_size, the remaining len(results) mod batch_size
results are written as one further batch file. The first component of the
value is the full results list, the second the written checkpoint files as
(batch number, contents) pairs in writing order. The script fixes
batch_size = 50; it is a parameter here so the claimed configurations can
be instantiated. -/
def socialfactMainLoop {r s : Type} (proc : r → s) (batchSize : Nat) :
    List r → Nat → List (Nat × s) → Nat →
      List (Nat × s) × List (Nat × List (Nat × s))
  | [], _, acc, batchNumber =>
    if acc.length % batchSize ≠ 0 then
      (acc, [(batchNumber, acc.drop (acc.length - acc.length % batchSize))])
    else (acc, [])
  | row :: rest, count, acc, batchNumber =>
    if (count + 1) % batchSize = 0 then
      ((socialfactMainLoop proc batchSize rest (count + 1)
          (acc ++ [(count + 1, proc row)]) (batchNumber + 1)).1,
        (batchNumber,
          (acc ++ [(count + 1, proc row)]).drop
            ((acc ++ [(count + 1, proc row)]).length - batchSize)) ::
          (socialfactMainLoop proc batchSize rest (count + 1)
            (acc ++ [(count + 1, proc row)]) (batchNumber + 1)).2)
    else
      socialfactMainLoop proc batchSize rest (count + 1)
        (acc ++ [(count + 1, proc row)]) batchNumber

/-- Final results of the socialfact loop extend the accumulator it entered
with. -/
theorem socialfactMainLoop_fst_ext {r s : Type} (proc : r → s) (bs : Nat) :
    ∀ (rows : List r) (count : Nat) (acc : List (Nat × s)) (bn : Nat),
      ∃ t, (socialfactMainLoop proc bs rows count acc bn).1 = acc ++ t
  | [], count, acc, bn => ⟨[], by rw [socialfactMainLoop]; split <;> simp⟩
  | row :: rest, count, acc, bn => by
    rw [socialfactMainLoop]
    by_cases h : (count + 1) % bs = 0
    · rw [if_pos h]
      rcases socialfactMainLoop_fst_ext proc bs rest (count + 1)
        (acc ++ [(count + 1, proc row)]) (bn + 1) with ⟨t, ht⟩
      exact ⟨[(count + 1, proc row)] ++ t, by simp [ht]⟩
    · rw [if_neg h]
      rcases socialfactMainLoop_fst_ext proc bs rest (count + 1)
        (acc ++ [(count + 1, proc row)]) bn with ⟨t, ht⟩
      exact ⟨[(count + 1, proc row)] ++ t, by simp [ht]⟩

/-- Arithmetic helper: stepping a counter either completes a batch (the
successor is a multiple of the batch size and the old remainder was the
last slot) or advances the remainder by one, below the batch size. -/
theorem sfModSuccCases (count bs : Nat) (hbs : 0 < bs) :
    ((count + 1) % bs = 0 ∧ count % bs + 1 = bs) ∨
    ((count + 1) % bs = count % bs + 1 ∧ count % bs + 1 < bs) := by
  have key : (count + 1) % bs = (count % bs + 1) % bs := by
    conv_lhs => rw [← Nat.div_add_mod count bs]
    rw [Nat.add_assoc, Nat.mul_add_mod]
  have hr : count % bs < bs := Nat.mod_lt _ hbs
  rcases Nat.lt_or_ge (count % bs + 1) bs with hlt | hge
  · right
    exact ⟨key.trans (Nat.mod_eq_of_lt hlt), hlt⟩
  · left
    have heq : count % bs + 1 = bs := by omega
    refine ⟨?_, heq⟩
    rw [key, heq, Nat.mod_self]

/-- The checkpoint files written by the socialfact loop partition the
results produced after the batch boundary the loop entered at: joined in
writing order they equal the final results minus the part of the entering
accumulator that earlier checkpoints already covered. -/
theorem socialfactMainLoop_join {r s : Type} (proc : r → s) (bs : Nat)
    (hbs : 0 < bs) :
    ∀ (rows : List r) (acc : List (Nat × s)) (bn : Nat),
      ((socialfactMainLoop proc bs rows acc.length acc bn).2.map Prod.snd).flatten
        = (socialfactMainLoop proc bs rows acc.length acc bn).1.drop
            (acc.length - acc.length % bs)
  | [], acc, bn => by
    rw [socialfactMainLoop]
    by_cases h : acc.length % bs ≠ 0
    · rw [if_pos h]
      simp
    · rw [if_neg h]
      push_neg at h
      simp [h, List.drop_length]
  | row :: rest, acc, bn => by
    rw [socialfactMainLoop]
    have hlen2 : (acc ++ [(acc.length + 1, proc row)]).length = acc.length + 1 := by
      simp
    rcases sfModSuccCases acc.length bs hbs with ⟨h0, hpred⟩ | ⟨hsucc, hlt⟩
    · rw [if_pos h0]
      have ih := socialfactMainLoop_join proc bs hbs rest
        (acc ++ [(acc.length + 1, proc row)]) (bn + 1)
      rw [hlen2] at ih
      rw [h0, Nat.sub_zero] at ih
      rcases socialfactMainLoop_fst_ext proc bs rest (acc.length + 1)
        (acc ++ [(acc.length + 1, proc row)]) (bn + 1) with ⟨t, ht⟩
      have hmodle := Nat.mod_le acc.length bs
      have hidx : acc.length - acc.length % bs = acc.length + 1 - bs := by omega
      simp only [List.map_cons, List.flatten_cons]
      rw [ih, ht, hlen2, hidx]
      have hd1 : ((acc ++ [(acc.length + 1, proc row)]) ++ t).drop (acc.length + 1) = t := by
        have hdl := List.drop_left (acc ++ [(acc.length + 1, proc row)]) t
        rwa [hlen2] at hdl
      have hd2 : ((acc ++ [(acc.length + 1, proc row)]) ++ t).drop (acc.length + 1 - bs)
          = (acc ++ [(acc.length + 1, proc row)]).drop (acc.length + 1 - bs) ++ t := by
        apply List.drop_append_of_le_length
        rw [hlen2]
        omega
      rw [hd1, hd2]
    · rw [if_neg (by omega)]
      have ih := socialfactMainLoop_join proc bs hbs rest
        (acc ++ [(acc.length + 1, proc row)]) bn
      rw [hlen2] at ih
      rw [hsucc] at ih
      have hidx : acc.length + 1 - (acc.length % bs + 1) = acc.length - acc.length % bs := by
        omega
      rw [hidx] at ih
      exact ih

/-- C8 counterexample: socialfact_batch_03 over 51 rows with its fixed
batch size 50 writes two checkpoint files; the first holds the Results of
rows 1-50 and the second only the Result of row 51, so the most recent
checkpoint is missing row 1's Result even though that Result is in the
accumulated output, refuting both that every Checkpoint contains all
Results so far and that the latest Checkpoint is a superset of earlier
ones. -/
theorem c8_counterexample_checkpoint_not_superset :
    ((socialfactMainLoop (fun n : Nat => n) 50 (List.range 51) 0 [] 1).2).length = 2
    ∧ (1, 0) ∈ (((socialfactMainLoop (fun n : Nat => n) 50
        (List.range 51) 0 [] 1).2.map Prod.snd).headD [])
    ∧ (1, 0) ∈ (socialfactMainLoop (fun n : Nat => n) 50 (List.range 51) 0 [] 1).1
    ∧ (1, 0) ∉ (((socialfactMainLoop (fun n : Nat => n) 50
        (List.range 51) 0 [] 1).2.map Prod.snd).getLastD []) := by
  decide

/-- C8 amended: a Checkpoint of socialfact_batch_03 holds only the Results
produced since the previous Checkpoint, and it is the concatenation of all
Checkpoints in writing order, not the most recent one alone, that equals
the run's accumulated Results; the per-row intermediate saves of
agency_eval_10 do each contain all Results so far, so there every save is
an initial segment of the final results and each successive save extends
the previous one. -/
theorem c8_amended_checkpoint_contents {r s r2 s2 : Type} (proc : r → s)
    (bs : Nat) (hbs : 0 < bs) (rows : List r) (proc2 : Nat → r2 → s2)
    (prev : List (Nat × s2)) (rows2 : List (Nat × r2)) :
    ((socialfactMainLoop proc bs rows 0 [] 1).2.map Prod.snd).flatten
      = (socialfactMainLoop proc bs rows 0 [] 1).1
    ∧ (∀ cp ∈ (agencyRun proc2 prev rows2).2,
        ∃ t, cp ++ t = (agencyRun proc2 prev rows2).1)
    ∧ List.Chain' (fun a b => ∃ t, a ++ t = b) (agencyRun proc2 prev rows2).2 := by
  refine ⟨?_, ?_, ?_⟩
  · have h := socialfactMainLoop_join proc bs hbs rows [] 1
    simpa using h
  · exact agencyMainLoop_cp_le_final proc2 (prev.map Prod.fst) rows2 prev
  · exact agencyMainLoop_cp_chain proc2 (prev.map Prod.fst) rows2 prev

/-- Witness for the amended C8 at batch size 2 over three rows, and at the
concrete agency resume state of the other witnesses. -/
theorem c8_witness :
    (0 < 2
    ∧ ((socialfactMainLoop (fun n : Nat => n) 2 [10, 11, 12] 0 [] 1).2.map Prod.snd).flatten
        = (socialfactMainLoop (fun n : Nat => n) 2 [10, 11, 12] 0 [] 1).1)
    ∧ (∀ cp ∈ (agencyRun (fun _ (v : Nat) => v) [(1, 5)] [(0, 7), (1, 8)]).2,
        ∃ t, cp ++ t = (agencyRun (fun _ (v : Nat) => v) [(1, 5)] [(0, 7), (1, 8)]).1)
    ∧ List.Chain' (fun a b => ∃ t, a ++ t = b)
        (agencyRun (fun _ (v : Nat) => v) [(1, 5)] [(0, 7), (1, 8)]).2 :=
  ⟨⟨by decide,
      (c8_amended_checkpoint_contents (fun n : Nat => n) 2 (by decide) [10, 11, 12]
        (fun _ (v : Nat) => v) [(1, 5)] [(0, 7), (1, 8)]).1⟩,
    (c8_amended_checkpoint_contents (fun n : Nat => n) 2 (by decide) [10, 11, 12]
      (fun _ (v : Nat) => v) [(1, 5)] [(0, 7), (1, 8)]).2.1,
    (c8_amended_checkpoint_contents (fun n : Nat => n) 2 (by decide) [10, 11, 12]
      (fun _ (v : Nat) => v) [(1, 5)] [(0, 7), (1, 8)]).2.2⟩

/-- C9: a full socialfact run over exactly seven WorkItems with batch size
and checkpoint cadence 3 (in the script both are the single batch_size
variable, fixed there at 50 and instantiated here at the claimed 3)
produces exactly seven Results in input order, writes an intermediate
checkpoint after the third row holding rows 1-3 and one after the sixth
row holding rows 4-6, and performs one final flush after the seventh row,
a third checkpoint holding the remaining Result. -/
theorem c9_seven_rows_batch3 {r s : Type} (proc : r → s)
    (w1 w2 w3 w4 w5 w6 w7 : r) :
    socialfactMainLoop proc 3 [w1, w2, w3, w4, w5, w6, w7] 0 [] 1
      = ([(1, proc w1), (2, proc w2), (3, proc w3), (4, proc w4),
          (5, proc w5), (6, proc w6), (7, proc w7)],
        [(1, [(1, proc w1), (2, proc w2), (3, proc w3)]),
          (2, [(4, proc w4), (5, proc w5), (6, proc w6)]),
          (3, [(7, proc w7)])]) := by
  simp [socialfactMainLoop]

/-- C6: a unit-of-work call that raises a permanent (or unclassified) error
for one row of a batch still yields a Result for every row of the batch:
the failing row's Result is recorded at once, without any retry path, with
the error marker Error: prefixed to the message, and every row whose call
succeeds is recorded with its response text. -/
theorem c6_permanent_failure_isolation {ρ : Type}
    (call : ρ → Except String String) (rows : List ρ) (r : ρ) (m : String)
    (hmem : r ∈ rows) (hfail : call r = .error m) :
    (process_batch call rows).length = rows.length
    ∧ (r, "Error: " ++ m) ∈ process_batch call rows
    ∧ ∀ r2 t, r2 ∈ rows → call r2 = .ok t →
        (r2, t) ∈ process_batch call rows := by
  refine ⟨process_batch_length call rows, ?_, ?_⟩
  · have h := process_batch_mem call rows r hmem
    simpa [analyze_institutions, hfail] using h
  · intro r2 t h2 hok
    have h := process_batch_mem call rows r2 h2
    simpa [analyze_institutions, hok] using h

/-- Concrete unit-of-work call failing permanently on row 5 only, used to
witness the failure-isolation theorem over the ten rows 1 to 10. -/
def c6Call : Nat → Except String String := fun n =>
  if n = 5 then Except.error "permanent rejection" else Except.ok "NA"

/-- Witness for C6: rows 1 to 10 with row 5 failing permanently. -/
theorem c6_witness :
    ((5 : Nat) ∈ List.range' 1 10
      ∧ c6Call 5 = Except.error "permanent rejection")
    ∧ ((process_batch c6Call (List.range' 1 10)).length
          = (List.range' 1 10).length
      ∧ (5, "Error: " ++ "permanent rejection")
          ∈ process_batch c6Call (List.range' 1 10)
      ∧ ∀ r2 t, r2 ∈ List.range' 1 10 → c6Call r2 = Except.ok t →
          (r2, t) ∈ process_batch c6Call (List.range' 1 10)) :=
  ⟨⟨by decide, by rfl⟩,
    c6_permanent_failure_isolation c6Call (List.range' 1 10) 5
      "permanent rejection" (by decide) (by rfl)⟩

/-- Character-wise comparison of two strings as Python compares the path
names returned by glob: true when the first is less than or equal to the
second in lexicographic order of code points. -/
def strLe : List Char → List Char → Bool
  | [], _ => true
  | _ :: _, [] => false
  | a :: as, b :: bs => if a = b then strLe as bs else decide (a < b)

/-- Insertion step of the model of Python's sorted builtin. -/
def insertLe {α : Type} (le : α → α → Bool) (x : α) : List α → List α
  | [] => [x]
  | y :: ys => if le x y then x :: y :: ys else y :: insertLe le x ys

/-- Model of Python's sorted builtin over a decidable total order: every
correct sort agrees with it on lists whose keys are pairwise distinct, as
the batch file names below are. -/
def pySorted {α : Type} (le : α → α → Bool) : List α → List α
  | [] => []
  | x :: xs => insertLe le x (pySorted le xs)

/-- File name institution_tag_02.py gives the temporary results file of
batch b (line 182): batch_{b}.jsonl; AgentPassive_tag_01.py line 165 uses
the same pattern inside its own temp directory. -/
def batchFileName (b : Nat) : String := "batch_" ++ toString b ++ ".jsonl"

/-- Number of batches main processes: len(df) // batch_size plus one when a
remainder exists (institution_tag_02.py line 169). -/
def totalBatches (n bs : Nat) : Nat := n / bs + (if n % bs ≠ 0 then 1 else 0)

/-- Contiguous batch b of the dataset: rows b * batch_size up to
min((b + 1) * batch_size, len(df)) (institution_tag_02.py lines 172-177). -/
def batchSlice {ρ : Type} (rows : List ρ) (bs b : Nat) : List ρ :=
  (rows.drop (b * bs)).take bs

/-- Order in which the combine step of main reads the temporary batch files
back: sorted(temp_dir.glob(...)) sorts the existing batch file names
lexicographically, not numerically (institution_tag_02.py line 192,
AgentPassive_tag_01.py line 175). -/
def combineOrder (tb : Nat) : List Nat :=
  (pySorted (fun x y => strLe x.1.data y.1.data)
    ((List.range tb).map (fun b => (batchFileName b, b)))).map Prod.snd

/-- Contents of the combined output file written at the end of main
(institution_tag_02.py lines 189-194): the per-batch results files,
each in row order, concatenated in lexicographic file-name order. -/
def combined_output {ρ : Type} (call : ρ → Except String String)
    (rows : List ρ) (bs : Nat) : List (ρ × String) :=
  ((combineOrder (totalBatches rows.length bs)).map
    (fun b => process_batch call (batchSlice rows bs b))).flatten

/-- C3 fails on the code: the combine step concatenates the batch files in
lexicographic file-name order, so with 11 single-row batches over rows 1 to
11 the file batch_10.jsonl is read between batch_1.jsonl and batch_2.jsonl
and the combined Results carry rows in the order 1, 2, 11, 3, ..., 10
rather than the input order 1, ..., 11. -/
theorem c3_lexicographic_combine_breaks_order :
    ((combined_output (fun _ : Nat => Except.ok "NA") (List.range' 1 11) 1).map
        Prod.fst
      = [1, 2, 11, 3, 4, 5, 6, 7, 8, 9, 10])
    ∧ ([1, 2, 11, 3, 4, 5, 6, 7, 8, 9, 10] : List Nat) ≠ List.range' 1 11 := by
  exact ⟨by decide, by decide⟩

/-- Python str.strip with an explicit character set, as a predicate:
removes matching characters from both ends (extract_output_section uses
strip of colons, whitespace, asterisks and double quotes). -/
def stripChars (p : Char → Bool) (s : List Char) : List Char :=
  ((s.dropWhile p).reverse.dropWhile p).reverse

/-- Whitespace characters removed by Python's bare str.strip. -/
def isPySpace (c : Char) : Bool :=
  c = ' ' || c = '\t' || c = '\n' || c = '\r' || c = '\x0b' || c = '\x0c'

/-- Whether pat occurs at the head of s, the test behind Python's
startswith and the occurrence checks of find and rfind. -/
def headMatch : List Char → List Char → Bool
  | [], _ => true
  | _ :: _, [] => false
  | a :: as, b :: bs => a = b && headMatch as bs

/-- Index of the first occurrence of pat in s, Python's str.find with none
in place of -1. -/
def findSub (pat : List Char) : List Char → Option Nat
  | [] => if pat.isEmpty then some 0 else none
  | c :: rest =>
    if headMatch pat (c :: rest) then some 0
    else (findSub pat rest).map (· + 1)

/-- Index of the last occurrence of pat in s, Python's str.rfind with none
in place of -1. -/
def rfindSub (pat : List Char) : List Char → Option Nat
  | [] => if pat.isEmpty then some 0 else none
  | c :: rest =>
    match rfindSub pat rest with
    | some i => some (i + 1)
    | none => if headMatch pat (c :: rest) then some 0 else none

/-- The marker list of extract_output_section
(src/scripts/LLM/socialfact_batch_03.py lines 8-19). -/
def markers : List String :=
  ["## 2. Output", "### Output", "\nOutput:", "**Output:**", "\n## Output",
    "2. Output:", "\n2. Output", "### 2. Output", "\n**Output", "Output"]

/-- Marker selection loop of extract_output_section (lines 21-31): scan the
markers in order, keeping the position and text of the marker whose last
occurrence is strictly furthest right; the running position starts at -1,
modelled as none, and a marker that is absent (rfind -1) never wins. -/
def lastMarker (s : List Char) : Option (Nat × List Char) :=
  markers.foldl
    (fun st m =>
      match rfindSub m.data s, st with
      | some p, some (q, w) => if p > q then some (p, m.data) else some (q, w)
      | some p, none => some (p, m.data)
      | none, _ => st)
    none

/-- First segment of Python's str.split: the characters before the first
occurrence of the separator, the [0] element used at line 35. -/
def splitFirst (sep : List Char) : List Char → List Char
  | [] => []
  | c :: rest =>
    if headMatch sep (c :: rest) then [] else c :: splitFirst sep rest

/-- Removal of every occurrence of pat, scanning left to right without
overlap: Python's str.replace with an empty replacement, used at line 45.
The fuel argument, set to the length of s, bounds the recursion; each step
consumes at least one character, so it never runs out. -/
def removeSubGo (pat : List Char) : Nat → List Char → List Char
  | 0, s => s
  | _ + 1, [] => []
  | fuel + 1, c :: rest =>
    if headMatch pat (c :: rest) && !pat.isEmpty then
      removeSubGo pat fuel ((c :: rest).drop pat.length)
    else c :: removeSubGo pat fuel rest

/-- Python str.replace(pat, empty) over character lists. -/
def removeSub (pat s : List Char) : List Char := removeSubGo pat s.length s

/-- Bold extraction step of extract_output_section (lines 38-43): when the
candidate starts with two asterisks and a closing pair exists later, the
text between them, stripped of whitespace, replaces the candidate unless
that text is empty. -/
def boldStep (s : List Char) : List Char :=
  if headMatch ['*', '*'] s then
    match findSub ['*', '*'] (s.drop 2) with
    | some idx =>
      if (stripChars isPySpace ((s.drop 2).take idx)).isEmpty then s
      else stripChars isPySpace ((s.drop 2).take idx)
    | none => s
  else s

/-- Text remaining after the whole cleanup pipeline of
extract_output_section (lines 33-45), given the position and text of the
selected marker: drop everything up to and including the marker, strip
colons then whitespace, cut at the first blank line, carriage return pair
or line break, strip asterisks then whitespace, prefer a leading bold
span, remove remaining asterisk pairs and asterisks, strip double quotes
then whitespace. -/
def outputCandidate (s : List Char) (pos : Nat) (marker : List Char) :
    List Char :=
  stripChars isPySpace
    (stripChars (fun c => c = '"')
      (removeSub ['*']
        (removeSub ['*', '*']
          (boldStep
            (stripChars isPySpace
              (stripChars (fun c => c = '*')
                (splitFirst ['\n']
                  (splitFirst ['\r', '\n']
                    (splitFirst ['\n', '\n']
                      (stripChars isPySpace
                        (stripChars (fun c => c = ':')
                          (s.drop (pos + marker.length)))))))))))))

/-- Model of extract_output_section (src/scripts/LLM/socialfact_batch_03.py
lines 7-50): select the marker with the rightmost last occurrence, clean up
the text after it, and return None when no marker occurs, when fewer than
10 characters remain, when the remainder starts with the character #, or
when it is empty; otherwise return the remainder. -/
def extract_output_section (analysis : String) : Option String :=
  match lastMarker analysis.data with
  | none => none
  | some (pos, marker) =>
    if (outputCandidate analysis.data pos marker).length < 10
        ∨ (outputCandidate analysis.data pos marker).headD ' ' = '#' then none
    else if outputCandidate analysis.data pos marker = [] then none
    else some (String.mk (outputCandidate analysis.data pos marker))

/-- C10: for every input string the output-section extractor returns either
None or a string of at least 10 characters whose first character is not #;
in particular a successful extraction is never the empty string. -/
theorem c10_extract_guard (analysis : String) :
    extract_output_section analysis = none
    ∨ ∃ t, extract_output_section analysis = some t
        ∧ 10 ≤ t.length ∧ t.data.headD ' ' ≠ '#' ∧ t ≠ "" := by
  cases h : lastMarker analysis.data with
  | none => exact Or.inl (by simp [extract_output_section, h])
  | some pm =>
    obtain ⟨pos, marker⟩ := pm
    by_cases hg : (outputCandidate analysis.data pos marker).length < 10
        ∨ (outputCandidate analysis.data pos marker).headD ' ' = '#'
    · refine Or.inl ?_
      simp only [extract_output_section, h]
      rw [if_pos hg]
    · right
      push_neg at hg
      obtain ⟨hlen, hhead⟩ := hg
      have hne : outputCandidate analysis.data pos marker ≠ [] := by
        intro he
        rw [he] at hlen
        simp at hlen
      have hext : extract_output_section analysis
          = some (String.mk (outputCandidate analysis.data pos marker)) := by
        simp only [extract_output_section, h]
        rw [if_neg (by push_neg; exact ⟨hlen, hhead⟩), if_neg hne]
      revert hlen hhead hne hext
      generalize outputCandidate analysis.data pos marker = cand
      intro hlen hhead hne hext
      exact ⟨String.mk cand, hext, hlen, hhead,
        fun he => hne (congrArg String.data he)⟩
